import Mathlib

/-!
Verification development for the gcp-cni repository (a CNI IPAM plugin with
pod IP preservation across node migration).

The development shallowly embeds the core of the Go source:

* `pkg/ipam` (src/unnamed/part_002): the IP allocator — `findAvailableIP`,
  `nextIP`, `isBroadcast`, `calculateCapacity`, the pure pool mutation
  performed by `tryAllocate` / `tryRelease`, and the CAS retry loops of
  `Allocator.Allocate` / `Allocator.Release`.
* the CNI driver (src/unnamed/part_000): the ordered effect trace of
  `cmdAdd` (allocation vs. `GetAllocation`, source-side alias detach, the
  completion wait, destination-side alias attach) and the head of `cmdDel`
  (the unguarded `pod.Status.PodIPs[0]` read).
* `internal/provisioner` (provisioner.go / range.go): the step sequence of
  `Provisioner.Provision` including the dropped error of
  `allocateInternalRange` at provisioner.go:168.

IPv4 addresses are modelled as natural numbers below `2^32` (the 32-bit
big-endian value of the dotted quad; the dotted-quad rendering used as a
map key in Go is injective on such values, so keying the allocation map by
the numeric value is a faithful abstraction of keying it by the canonical
string). Machine `int` status fields are modelled as `Int`.
-/

namespace GcpCni

/-- An IPv4 allocation record: the value type of the pool's `allocations`
map (`v1alpha1.IPAllocation`).  `allocatedAt` is an abstract timestamp. -/
structure IPAllocation where
  podName : String
  podNamespace : String
  podUID : String
  nodeName : String
  allocatedAt : Nat
  deriving DecidableEq, Repr

/-- A parsed IPv4 CIDR as produced by Go's `net.ParseCIDR`: the address part
`base` and the number of mask bits `pfxLen` (`ones` of `ipNet.Mask.Size()`). -/
structure CIDR where
  base : Nat
  pfxLen : Nat
  deriving DecidableEq, Repr

namespace CIDR

/-- Number of host bits, `bits - ones` in `calculateCapacity`. -/
def hostBits (c : CIDR) : Nat := 32 - c.pfxLen

/-- The network address `ip & mask` (`ip.Mask(ipNet.Mask)` in
`findAvailableIP`): clearing the low `hostBits` bits of `base`. -/
def network (c : CIDR) : Nat := c.base - c.base % 2 ^ c.hostBits

/-- The broadcast address `network | ~mask`: the network address with all
host bits set. -/
def broadcast (c : CIDR) : Nat := c.network + (2 ^ c.hostBits - 1)

/-- Go's `ipNet.Contains(a)`: `a & mask == network`. -/
def containsIP (c : CIDR) (a : Nat) : Bool :=
  decide (a - a % 2 ^ c.hostBits = c.network)

end CIDR

/-- The allocations map `map[string]IPAllocation`, keyed by the numeric
value of the dotted-quad key.  Represented as an association list; the maps
built by the code always have pairwise-distinct keys. -/
abbrev AllocMap := List (Nat × IPAllocation)

/-- Go map lookup `v, ok := m[k]`. -/
def mapLookup : AllocMap → Nat → Option IPAllocation
  | [], _ => none
  | p :: t, k => if k = p.1 then some p.2 else mapLookup t k

/-- Go map lookup presence test: `_, exists := m[k]`. -/
def mapHasKey (m : AllocMap) (k : Nat) : Bool :=
  (mapLookup m k).isSome

/-- Removal of every binding of key `k` (the maps built by the code bind
each key at most once). -/
def mapErase : AllocMap → Nat → AllocMap
  | [], _ => []
  | p :: t, k => if p.1 = k then mapErase t k else p :: mapErase t k

/-- Go map insertion `m[k] = v` (any previous binding of `k` is replaced;
a Go map is unordered, so placing the new binding first is immaterial). -/
def mapInsert (m : AllocMap) (k : Nat) (v : IPAllocation) : AllocMap :=
  (k, v) :: mapErase m k

/-- Go map deletion `delete(m, k)`. -/
def mapDelete (m : AllocMap) (k : Nat) : AllocMap :=
  mapErase m k

/-- Go `len(m)` for a map with pairwise-distinct keys. -/
def mapLen (m : AllocMap) : Nat := m.length

/-- The `nextIP` function of part_002: byte-wise increment with carry over
the 4-byte address, i.e. addition by one modulo `2^32`. -/
def nextIP (a : Nat) : Nat := (a + 1) % 2 ^ 32

/-- The `isBroadcast` function of part_002: `a` equals `a | ~mask`, i.e.
all host bits of `a` are set. -/
def isBroadcast (a : Nat) (c : CIDR) : Bool :=
  decide (a = a - a % 2 ^ c.hostBits + (2 ^ c.hostBits - 1))

/-- The scan loop of `findAvailableIP`
(`for ipNet.Contains(currentIP) { ... }`), with explicit fuel.  Each
iteration: if the current address is outside the network the loop exits with
no result; the broadcast address breaks the loop; an address absent from the
allocation map is returned; otherwise advance by `nextIP`. -/
def scanIP (c : CIDR) (alloc : AllocMap) : Nat → Nat → Option Nat
  | 0, _ => none
  | fuel + 1, cur =>
    if c.containsIP cur then
      if isBroadcast cur c then none
      else if mapHasKey alloc cur then scanIP c alloc fuel (nextIP cur)
      else some cur
    else none

/-- The `findAvailableIP` function of part_002 on a parsed CIDR: start at
the network address, skip it by one `nextIP` step, then scan.  `none`
models the `"no available IPs in CIDR"` error.  The fuel `2 ^ hostBits`
bounds the number of addresses inside the network, which the proof below
shows is sufficient for the loop to reach its exit condition. -/
def findAvailableIP (c : CIDR) (alloc : AllocMap) : Option Nat :=
  scanIP c alloc (2 ^ c.hostBits) (nextIP c.network)

/-- The `calculateCapacity` function of part_002 on a parsed CIDR:
`1` for a `/32`, otherwise `2^(bits-ones) - 2`. -/
def calculateCapacity (c : CIDR) : Int :=
  if c.pfxLen = 32 then 1 else (2 ^ (32 - c.pfxLen) : Int) - 2

/-- Observed status of an `IPPool` (`v1alpha1.IPPoolStatus`); the Go fields
are machine ints. -/
structure IPPoolStatus where
  capacity : Int
  allocated : Int
  available : Int
  lastUpdated : Nat
  deriving DecidableEq, Repr

/-- An `IPPool` record with its CIDR already parsed (`v1alpha1.IPPool`
spec + status; the claims under verification all concern pools whose
`spec.cidr` string parses). -/
structure IPPool where
  cidr : CIDR
  subnet : String
  secondaryRangeName : String
  allocations : AllocMap
  status : IPPoolStatus
  deriving DecidableEq, Repr

/-- An allocation request (`ipam.AllocationRequest`); `requestedIP = none`
models the empty `RequestedIP` string. -/
structure AllocationRequest where
  poolName : String
  podName : String
  podNamespace : String
  podUID : String
  nodeName : String
  requestedIP : Option Nat
  deriving DecidableEq, Repr

/-- The result of a successful allocation (`ipam.AllocationResult`). -/
structure AllocationResult where
  ip : Nat
  cidr : CIDR
  subnet : String
  secondaryRangeName : String
  deriving DecidableEq, Repr

/-- Errors produced by a single allocation attempt. -/
inductive AllocErr where
  /-- the error `requested IP %s is already allocated` -/
  | alreadyAllocated : AllocErr
  /-- the error `no available IPs in CIDR %s` (wrapped as `failed to find available IP`) -/
  | noAvailable : AllocErr
  deriving DecidableEq, Repr

/-- The pool mutation performed by a `tryAllocate` attempt whose `Get` and
`Update` RPCs succeed (part_002 lines 96-165): choose the IP (requested, if
free; else first available), insert the allocation record, recompute the
status. -/
def tryAllocatePure (pool : IPPool) (req : AllocationRequest) (now : Nat) :
    Except AllocErr (AllocationResult × IPPool) := do
  let allocatedIP ← match req.requestedIP with
    | some rip =>
      if mapHasKey pool.allocations rip then Except.error AllocErr.alreadyAllocated
      else Except.ok rip
    | none =>
      match findAvailableIP pool.cidr pool.allocations with
      | none => Except.error AllocErr.noAvailable
      | some ip => Except.ok ip
  let newAllocations := mapInsert pool.allocations allocatedIP
    ⟨req.podName, req.podNamespace, req.podUID, req.nodeName, now⟩
  let capacity := calculateCapacity pool.cidr
  let newStatus : IPPoolStatus :=
    ⟨capacity, (mapLen newAllocations : Int),
      capacity - (mapLen newAllocations : Int), now⟩
  let pool' : IPPool :=
    ⟨pool.cidr, pool.subnet, pool.secondaryRangeName, newAllocations, newStatus⟩
  Except.ok (⟨allocatedIP, pool.cidr, pool.subnet, pool.secondaryRangeName⟩, pool')

/-! ### Arithmetic facts about the parsed CIDR -/

theorem CIDR.network_eq (c : CIDR) :
    c.network = 2 ^ c.hostBits * (c.base / 2 ^ c.hostBits) := by
  have h := Nat.div_add_mod c.base (2 ^ c.hostBits)
  unfold CIDR.network
  omega

theorem CIDR.network_le_base (c : CIDR) : c.network ≤ c.base := by
  unfold CIDR.network
  omega

theorem CIDR.network_le_broadcast (c : CIDR) : c.network ≤ c.broadcast := by
  unfold CIDR.broadcast
  omega

theorem CIDR.broadcast_lt (c : CIDR) (hbase : c.base < 2 ^ 32) :
    c.broadcast < 2 ^ 32 := by
  have hhb : c.hostBits ≤ 32 := Nat.sub_le _ _
  have hsplit : 2 ^ 32 = 2 ^ c.hostBits * 2 ^ (32 - c.hostBits) := by
    rw [← pow_add]
    congr 1
    omega
  have hpos : 0 < 2 ^ c.hostBits := Nat.pos_pow_of_pos _ (by omega)
  have hdiv : c.base / 2 ^ c.hostBits < 2 ^ (32 - c.hostBits) := by
    rw [Nat.div_lt_iff_lt_mul hpos]
    calc c.base < 2 ^ 32 := hbase
    _ = 2 ^ (32 - c.hostBits) * 2 ^ c.hostBits := by rw [hsplit]; ring
  have : c.network + 2 ^ c.hostBits ≤ 2 ^ 32 := by
    rw [CIDR.network_eq, hsplit]
    calc 2 ^ c.hostBits * (c.base / 2 ^ c.hostBits) + 2 ^ c.hostBits
        = 2 ^ c.hostBits * (c.base / 2 ^ c.hostBits + 1) := by ring
    _ ≤ 2 ^ c.hostBits * 2 ^ (32 - c.hostBits) := by
          exact Nat.mul_le_mul_left _ (by omega)
  unfold CIDR.broadcast
  omega

theorem CIDR.contains_iff (c : CIDR) (a : Nat) :
    c.containsIP a = true ↔ c.network ≤ a ∧ a ≤ c.broadcast := by
  have hpos : 0 < 2 ^ c.hostBits := Nat.pos_pow_of_pos _ (by omega)
  have ha := Nat.div_add_mod a (2 ^ c.hostBits)
  have hmlt : a % 2 ^ c.hostBits < 2 ^ c.hostBits := Nat.mod_lt _ hpos
  unfold CIDR.containsIP
  rw [decide_eq_true_iff]
  constructor
  · intro h
    constructor
    · calc c.network = a - a % 2 ^ c.hostBits := h.symm
      _ ≤ a := Nat.sub_le _ _
    · unfold CIDR.broadcast
      omega
  · intro ⟨h1, h2⟩
    have hq : a / 2 ^ c.hostBits = c.base / 2 ^ c.hostBits := by
      apply Nat.div_eq_of_lt_le
      · calc c.base / 2 ^ c.hostBits * 2 ^ c.hostBits
            = 2 ^ c.hostBits * (c.base / 2 ^ c.hostBits) := by ring
        _ = c.network := (CIDR.network_eq c).symm
        _ ≤ a := h1
      · have hb : a ≤ c.broadcast := h2
        unfold CIDR.broadcast at hb
        have hne := CIDR.network_eq c
        have hexp : (c.base / 2 ^ c.hostBits + 1) * 2 ^ c.hostBits
            = 2 ^ c.hostBits * (c.base / 2 ^ c.hostBits) + 2 ^ c.hostBits := by ring
        omega
    have : a - a % 2 ^ c.hostBits = 2 ^ c.hostBits * (a / 2 ^ c.hostBits) := by omega
    rw [this, hq, ← CIDR.network_eq]

theorem CIDR.mod_of_between (c : CIDR) (a : Nat)
    (h1 : c.network ≤ a) (h2 : a ≤ c.broadcast) :
    a % 2 ^ c.hostBits = a - c.network := by
  have hpos : 0 < 2 ^ c.hostBits := Nat.pos_pow_of_pos _ (by omega)
  have hne := CIDR.network_eq c
  have hb : a ≤ c.network + (2 ^ c.hostBits - 1) := h2
  obtain ⟨r, hr⟩ : ∃ r, a = c.network + r := ⟨a - c.network, by omega⟩
  have hrlt : r < 2 ^ c.hostBits := by
    unfold CIDR.broadcast at h2
    omega
  subst hr
  rw [hne]
  rw [Nat.mul_add_mod]
  rw [Nat.mod_eq_of_lt hrlt]
  omega

theorem isBroadcast_iff (c : CIDR) (a : Nat)
    (h1 : c.network ≤ a) (h2 : a ≤ c.broadcast) :
    isBroadcast a c = true ↔ a = c.broadcast := by
  have hpos : 0 < 2 ^ c.hostBits := Nat.pos_pow_of_pos _ (by omega)
  have hmod := CIDR.mod_of_between c a h1 h2
  unfold isBroadcast
  rw [decide_eq_true_iff]
  unfold CIDR.broadcast at h2 ⊢
  omega

theorem nextIP_eq (a : Nat) (h : a + 1 < 2 ^ 32) : nextIP a = a + 1 := by
  unfold nextIP
  exact Nat.mod_eq_of_lt h

/-- The pool mutation performed by a `tryRelease` attempt whose `Get` and
`Update` RPCs succeed (part_002 lines 225-259): delete the key (a no-op when
absent) and recompute the status. -/
def tryReleasePure (pool : IPPool) (ip : Nat) (now : Nat) : IPPool :=
  let newAllocations := mapDelete pool.allocations ip
  let capacity := calculateCapacity pool.cidr
  let newStatus : IPPoolStatus :=
    ⟨capacity, (mapLen newAllocations : Int),
      capacity - (mapLen newAllocations : Int), now⟩
  ⟨pool.cidr, pool.subnet, pool.secondaryRangeName, newAllocations, newStatus⟩

/-! ### Correctness of the IP scan -/

/-- Soundness of the scan loop of `findAvailableIP`: started strictly above
the network address with enough fuel, it returns the least free address in
`[cur, broadcast)` and returns `none` exactly when every such address is
allocated. -/
theorem scanIP_sound (c : CIDR) (alloc : AllocMap) (hbase : c.base < 2 ^ 32) :
    ∀ fuel cur, c.network < cur → cur ≤ c.broadcast →
      c.broadcast + 1 - cur ≤ fuel →
      ((∀ a, scanIP c alloc fuel cur = some a →
          cur ≤ a ∧ a < c.broadcast ∧ mapHasKey alloc a = false ∧
          ∀ b, cur ≤ b → b < c.broadcast → mapHasKey alloc b = false → a ≤ b) ∧
       (scanIP c alloc fuel cur = none →
          ∀ b, cur ≤ b → b < c.broadcast → mapHasKey alloc b = true)) := by
  intro fuel
  induction fuel with
  | zero => intro cur h1 h2 h3; omega
  | succ n ih =>
    intro cur h1 h2 h3
    have hcont : c.containsIP cur = true :=
      (CIDR.contains_iff c cur).mpr ⟨le_of_lt h1, h2⟩
    by_cases hbc : cur = c.broadcast
    · have hisb : isBroadcast cur c = true :=
        (isBroadcast_iff c cur (le_of_lt h1) h2).mpr hbc
      constructor
      · intro a ha
        simp only [scanIP, hcont, hisb, if_true] at ha
        exact Option.noConfusion ha
      · intro _ b hb1 hb2
        omega
    · have hlt : cur < c.broadcast := lt_of_le_of_ne h2 hbc
      have hisb : isBroadcast cur c = false := by
        rcases Bool.eq_false_or_eq_true (isBroadcast cur c) with h | h
        · exact absurd ((isBroadcast_iff c cur (le_of_lt h1) h2).mp h) hbc
        · exact h
      have hnext : nextIP cur = cur + 1 := by
        have hB := CIDR.broadcast_lt c hbase
        exact nextIP_eq cur (by omega)
      by_cases hk : mapHasKey alloc cur = true
      · have hrec := ih (cur + 1) (by omega) (by omega) (by omega)
        constructor
        · intro a ha
          simp only [scanIP, hcont, hisb, hk, hnext, if_true, if_false,
            Bool.false_eq_true] at ha
          obtain ⟨ha1, ha2, ha3, ha4⟩ := hrec.1 a ha
          refine ⟨by omega, ha2, ha3, ?_⟩
          intro b hb1 hb2 hb3
          rcases Nat.eq_or_lt_of_le hb1 with hb | hb
          · exfalso
            rw [← hb] at hb3
            rw [hk] at hb3
            exact absurd hb3 (by simp)
          · exact ha4 b (by omega) hb2 hb3
        · intro ha b hb1 hb2
          simp only [scanIP, hcont, hisb, hk, hnext, if_true, if_false,
            Bool.false_eq_true] at ha
          rcases Nat.eq_or_lt_of_le hb1 with hb | hb
          · rw [← hb]; exact hk
          · exact hrec.2 ha b (by omega) hb2
      · have hk' : mapHasKey alloc cur = false := by
          rcases Bool.eq_false_or_eq_true (mapHasKey alloc cur) with h | h
          · exact absurd h hk
          · exact h
        constructor
        · intro a ha
          simp only [scanIP, hcont, hisb, hk', if_true, if_false,
            Bool.false_eq_true, Option.some.injEq] at ha
          subst ha
          exact ⟨le_refl _, hlt, hk', fun b hb _ _ => hb⟩
        · intro ha
          simp only [scanIP, hcont, hisb, hk', if_true, if_false,
            Bool.false_eq_true] at ha
          exact Option.noConfusion ha

/-- Full specification of `findAvailableIP` on a parsed CIDR whose address
fits in 32 bits: a returned address is the numerically least address that is
strictly above the network address, strictly below the broadcast address and
absent from the allocation map; `none` is returned exactly when no such
address exists. -/
theorem findAvailableIP_spec (c : CIDR) (alloc : AllocMap)
    (hbase : c.base < 2 ^ 32) :
    (∀ a, findAvailableIP c alloc = some a →
        c.network < a ∧ a < c.broadcast ∧ mapHasKey alloc a = false ∧
        ∀ b, c.network < b → b < c.broadcast → mapHasKey alloc b = false →
          a ≤ b) ∧
    (findAvailableIP c alloc = none →
        ∀ b, c.network < b → b < c.broadcast → mapHasKey alloc b = true) := by
  have hB := CIDR.broadcast_lt c hbase
  have hNB := CIDR.network_le_broadcast c
  by_cases hhb : c.hostBits = 0
  · have hBN : c.broadcast = c.network := by
      unfold CIDR.broadcast
      rw [hhb]
      simp
    have hnone : findAvailableIP c alloc = none := by
      unfold findAvailableIP
      have hfuel : 2 ^ c.hostBits = 1 := by rw [hhb]; rfl
      rw [hfuel]
      have hnc : c.containsIP (nextIP c.network) = false := by
        rcases Bool.eq_false_or_eq_true (c.containsIP (nextIP c.network)) with h | h
        swap
        · exact h
        · obtain ⟨hg1, hg2⟩ := (CIDR.contains_iff c _).mp h
          rw [hBN] at hg2
          have : nextIP c.network = c.network := by omega
          unfold nextIP at this
          have hNlt : c.network < 2 ^ 32 := by omega
          by_cases hw : c.network + 1 < 2 ^ 32
          · rw [Nat.mod_eq_of_lt hw] at this; omega
          · have hNe : c.network + 1 = 2 ^ 32 := by omega
            rw [hNe] at this
            simp at this
            omega
      simp only [scanIP, hnc, Bool.false_eq_true, if_false]
    constructor
    · intro a ha
      rw [hnone] at ha
      exact absurd ha (by simp)
    · intro _ b hb1 hb2
      rw [hBN] at hb2
      omega
  · have hm : 1 ≤ 2 ^ c.hostBits - 1 := by
      have : 2 ^ 1 ≤ 2 ^ c.hostBits := Nat.pow_le_pow_right (by omega) (by omega)
      omega
    have hNB1 : c.network + 1 ≤ c.broadcast := by
      unfold CIDR.broadcast
      omega
    have hnext : nextIP c.network = c.network + 1 := nextIP_eq _ (by omega)
    have hscan := scanIP_sound c alloc hbase (2 ^ c.hostBits) (c.network + 1)
      (by omega) hNB1 (by unfold CIDR.broadcast; omega)
    unfold findAvailableIP
    rw [hnext]
    constructor
    · intro a ha
      obtain ⟨ha1, ha2, ha3, ha4⟩ := hscan.1 a ha
      exact ⟨by omega, ha2, ha3, fun b hb1 hb2 hb3 => ha4 b (by omega) hb2 hb3⟩
    · intro ha b hb1 hb2
      exact hscan.2 ha b (by omega) hb2

/-! ### Association-list map lemmas -/

theorem mapErase_of_absent (m : AllocMap) (k : Nat)
    (h : mapHasKey m k = false) : mapErase m k = m := by
  induction m with
  | nil => rfl
  | cons p t ih =>
    unfold mapHasKey mapLookup at h
    by_cases hp : k = p.1
    · simp [hp] at h
    · simp only [hp, if_false] at h
      have hne : ¬ p.1 = k := fun hh => hp hh.symm
      unfold mapErase
      rw [if_neg hne, ih h]

theorem mapLookup_erase (m : AllocMap) (k a : Nat) :
    mapLookup (mapErase m k) a = if a = k then none else mapLookup m a := by
  induction m with
  | nil => simp [mapErase, mapLookup]
  | cons p t ih =>
    unfold mapErase
    by_cases hp : p.1 = k
    · rw [if_pos hp, ih]
      by_cases ha : a = k
      · simp [ha]
      · have hne : ¬ a = p.1 := by rw [hp]; exact ha
        simp [ha, mapLookup, hne]
    · rw [if_neg hp]
      unfold mapLookup
      by_cases ha : a = p.1
      · have hak : ¬ a = k := by rw [ha]; exact hp
        simp [ha, hak, hp]
      · simp only [ha, if_false]
        exact ih

theorem mapLookup_insert (m : AllocMap) (k : Nat) (v : IPAllocation) (a : Nat) :
    mapLookup (mapInsert m k v) a = if a = k then some v else mapLookup m a := by
  unfold mapInsert
  show (if a = k then some v else mapLookup (mapErase m k) a) = _
  by_cases ha : a = k
  · rw [if_pos ha, if_pos ha]
  · rw [if_neg ha, if_neg ha, mapLookup_erase, if_neg ha]

theorem mapHasKey_insert (m : AllocMap) (k : Nat) (v : IPAllocation) (a : Nat) :
    mapHasKey (mapInsert m k v) a = true ↔ (a = k ∨ mapHasKey m a = true) := by
  unfold mapHasKey
  rw [mapLookup_insert]
  by_cases ha : a = k
  · simp [ha]
  · simp [ha]

theorem mapLen_insert_absent (m : AllocMap) (k : Nat) (v : IPAllocation)
    (h : mapHasKey m k = false) : mapLen (mapInsert m k v) = mapLen m + 1 := by
  unfold mapInsert mapLen
  rw [mapErase_of_absent m k h]
  simp [Nat.add_comm]

theorem mapHasKey_iff_mem_keys (m : AllocMap) (a : Nat) :
    mapHasKey m a = true ↔ a ∈ m.map Prod.fst := by
  induction m with
  | nil => simp [mapHasKey, mapLookup]
  | cons p t ih =>
    by_cases ha : a = p.1
    · simp [mapHasKey, mapLookup, ha]
    · have hstep : mapHasKey (p :: t) a = mapHasKey t a := by
        unfold mapHasKey
        have hlk : mapLookup (p :: t) a = mapLookup t a := by
          show (if a = p.1 then some p.2 else mapLookup t a) = mapLookup t a
          rw [if_neg ha]
        rw [hlk]
      rw [hstep, ih]
      simp [ha]

theorem mapDelete_insert_absent (m : AllocMap) (k : Nat) (v : IPAllocation)
    (h : mapHasKey m k = false) : mapDelete (mapInsert m k v) k = m := by
  unfold mapDelete mapInsert mapErase
  rw [if_pos rfl]
  have h2 : mapHasKey (mapErase m k) k = false := by
    unfold mapHasKey
    rw [mapLookup_erase]
    simp
  rw [mapErase_of_absent _ _ h2, mapErase_of_absent m k h]

theorem mapDelete_of_absent (m : AllocMap) (k : Nat)
    (h : mapHasKey m k = false) : mapDelete m k = m :=
  mapErase_of_absent m k h

theorem mapErase_keys_subset (m : AllocMap) (k : Nat) :
    ∀ a ∈ (mapErase m k).map Prod.fst, a ∈ m.map Prod.fst := by
  induction m with
  | nil => simp [mapErase]
  | cons p t ih =>
    intro a ha
    unfold mapErase at ha
    by_cases hp : p.1 = k
    · rw [if_pos hp] at ha
      exact List.mem_cons_of_mem _ (ih a ha)
    · rw [if_neg hp] at ha
      simp only [List.map_cons, List.mem_cons] at ha ⊢
      rcases ha with ha | ha
      · exact Or.inl ha
      · exact Or.inr (ih a ha)

theorem mapErase_keys_nodup (m : AllocMap) (k : Nat)
    (h : (m.map Prod.fst).Nodup) : ((mapErase m k).map Prod.fst).Nodup := by
  induction m with
  | nil => simp [mapErase]
  | cons p t ih =>
    simp only [List.map_cons, List.nodup_cons] at h
    unfold mapErase
    by_cases hp : p.1 = k
    · rw [if_pos hp]
      exact ih h.2
    · rw [if_neg hp]
      simp only [List.map_cons, List.nodup_cons]
      exact ⟨fun hc => h.1 (mapErase_keys_subset t k p.1 hc), ih h.2⟩

theorem mapHasKey_erase (m : AllocMap) (k a : Nat) :
    mapHasKey (mapErase m k) a = true ↔ (a ≠ k ∧ mapHasKey m a = true) := by
  unfold mapHasKey
  rw [mapLookup_erase]
  by_cases ha : a = k
  · simp [ha]
  · simp [ha]

/-! ### Unfolding lemmas for the allocation attempt -/

/-- The pool written back by a successful allocation of `ip`. -/
def allocWriteback (pool : IPPool) (req : AllocationRequest) (now : Nat)
    (ip : Nat) : IPPool :=
  let newAllocations := mapInsert pool.allocations ip
    ⟨req.podName, req.podNamespace, req.podUID, req.nodeName, now⟩
  ⟨pool.cidr, pool.subnet, pool.secondaryRangeName, newAllocations,
    ⟨calculateCapacity pool.cidr, (mapLen newAllocations : Int),
     calculateCapacity pool.cidr - (mapLen newAllocations : Int), now⟩⟩

theorem tryAllocatePure_scan_none (pool : IPPool) (req : AllocationRequest)
    (now : Nat) (hreq : req.requestedIP = none)
    (h : findAvailableIP pool.cidr pool.allocations = none) :
    tryAllocatePure pool req now = Except.error AllocErr.noAvailable := by
  unfold tryAllocatePure
  rw [hreq, h]
  rfl

theorem tryAllocatePure_scan_some (pool : IPPool) (req : AllocationRequest)
    (now : Nat) (ip : Nat) (hreq : req.requestedIP = none)
    (h : findAvailableIP pool.cidr pool.allocations = some ip) :
    tryAllocatePure pool req now = Except.ok
      (⟨ip, pool.cidr, pool.subnet, pool.secondaryRangeName⟩,
       allocWriteback pool req now ip) := by
  unfold tryAllocatePure allocWriteback
  rw [hreq, h]
  rfl

theorem tryAllocatePure_req_taken (pool : IPPool) (req : AllocationRequest)
    (now : Nat) (rip : Nat) (hreq : req.requestedIP = some rip)
    (h : mapHasKey pool.allocations rip = true) :
    tryAllocatePure pool req now = Except.error AllocErr.alreadyAllocated := by
  unfold tryAllocatePure
  rw [hreq]
  simp only [h, if_true]
  rfl

theorem tryAllocatePure_req_free (pool : IPPool) (req : AllocationRequest)
    (now : Nat) (rip : Nat) (hreq : req.requestedIP = some rip)
    (h : mapHasKey pool.allocations rip = false) :
    tryAllocatePure pool req now = Except.ok
      (⟨rip, pool.cidr, pool.subnet, pool.secondaryRangeName⟩,
       allocWriteback pool req now rip) := by
  unfold tryAllocatePure allocWriteback
  rw [hreq]
  simp only [h, Bool.false_eq_true, if_false]
  rfl

/-! ### Sequential allocation -/

/-- The number of usable addresses of a CIDR: those strictly between the
network and the broadcast address. -/
def usableCount (c : CIDR) : Nat := c.broadcast - c.network - 1

/-- Runs `n` successive `Allocate` calls without a requested IP (each one a
`tryAllocate` whose `Get`/`Update` RPCs succeed), threading the pool state
and collecting the returned IPs in order. -/
def allocateN (req : AllocationRequest) (now : Nat) :
    IPPool → Nat → Except AllocErr (List Nat × IPPool)
  | pool, 0 => Except.ok ([], pool)
  | pool, n + 1 => do
    let (ips, p) ← allocateN req now pool n
    let (res, p') ← tryAllocatePure p req now
    Except.ok (ips ++ [res.ip], p')

/-- One allocation step from a pool whose allocated key set is exactly
`(network, network + i]`: for `i < usableCount` the scan yields
`network + 1 + i` and the post-state key set is `(network, network + i + 1]`;
for `i = usableCount` the attempt fails with pool exhaustion. -/
theorem tryAllocate_step (c : CIDR) (hbase : c.base < 2 ^ 32) (p : IPPool)
    (hc : p.cidr = c) (i : Nat)
    (hinv : ∀ a, mapHasKey p.allocations a = true ↔
      (c.network < a ∧ a ≤ c.network + i))
    (req : AllocationRequest) (now : Nat) (hreq : req.requestedIP = none) :
    (i < usableCount c →
      tryAllocatePure p req now = Except.ok
        (⟨c.network + 1 + i, c, p.subnet, p.secondaryRangeName⟩,
         allocWriteback p req now (c.network + 1 + i)) ∧
      ∀ a, mapHasKey (allocWriteback p req now (c.network + 1 + i)).allocations
          a = true ↔ (c.network < a ∧ a ≤ c.network + (i + 1))) ∧
    (i = usableCount c →
      tryAllocatePure p req now = Except.error AllocErr.noAvailable) := by
  have hspec := findAvailableIP_spec c p.allocations hbase
  have hK : c.broadcast = c.network + (usableCount c + 1) ∨ usableCount c = 0 := by
    unfold usableCount
    have := CIDR.network_le_broadcast c
    omega
  constructor
  · intro hi
    have hfree : mapHasKey p.allocations (c.network + 1 + i) = false := by
      rcases Bool.eq_false_or_eq_true (mapHasKey p.allocations (c.network + 1 + i))
        with h | h
      · rw [hinv] at h
        omega
      · exact h
    have hin : c.network < c.network + 1 + i ∧ c.network + 1 + i < c.broadcast := by
      unfold usableCount at hi
      omega
    have hsome : ∃ a, findAvailableIP c p.allocations = some a := by
      cases hfa : findAvailableIP c p.allocations with
      | none =>
        have := hspec.2 hfa (c.network + 1 + i) hin.1 hin.2
        rw [hfree] at this
        exact absurd this (by simp)
      | some a => exact ⟨a, rfl⟩
    obtain ⟨a, ha⟩ := hsome
    obtain ⟨ha1, ha2, ha3, ha4⟩ := hspec.1 a ha
    have haeq : a = c.network + 1 + i := by
      have hle : a ≤ c.network + 1 + i := ha4 _ hin.1 hin.2 hfree
      have hgt : ¬ (c.network < a ∧ a ≤ c.network + i) := by
        intro hcon
        have := (hinv a).mpr hcon
        rw [ha3] at this
        exact absurd this (by simp)
      omega
    subst haeq
    have hfa' : findAvailableIP p.cidr p.allocations = some (c.network + 1 + i) := by
      rw [hc]; exact ha
    constructor
    · rw [tryAllocatePure_scan_some p req now _ hreq hfa', hc]
    · intro b
      unfold allocWriteback
      simp only
      rw [mapHasKey_insert, hinv]
      omega
  · intro hi
    have hnone : findAvailableIP c p.allocations = none := by
      cases hfa : findAvailableIP c p.allocations with
      | none => rfl
      | some a =>
        obtain ⟨ha1, ha2, ha3, ha4⟩ := hspec.1 a hfa
        have : ¬ (c.network < a ∧ a ≤ c.network + i) := by
          intro hcon
          have := (hinv a).mpr hcon
          rw [ha3] at this
          exact absurd this (by simp)
        unfold usableCount at hi
        omega
    apply tryAllocatePure_scan_none p req now hreq
    rw [hc]
    exact hnone

/-- Running `i ≤ usableCount` successive allocations from an empty pool
yields exactly the addresses `network+1, …, network+i` in order, and the
post-state's key set is `(network, network+i]`. -/
theorem allocateN_spec (c : CIDR) (hbase : c.base < 2 ^ 32)
    (req : AllocationRequest) (now : Nat) (hreq : req.requestedIP = none)
    (pool0 : IPPool) (hc : pool0.cidr = c) (hempty : pool0.allocations = []) :
    ∀ i, i ≤ usableCount c →
      ∃ p, allocateN req now pool0 i =
          Except.ok ((List.range i).map (fun j => c.network + 1 + j), p) ∧
        p.cidr = c ∧ p.subnet = pool0.subnet ∧
        p.secondaryRangeName = pool0.secondaryRangeName ∧
        (∀ a, mapHasKey p.allocations a = true ↔
          (c.network < a ∧ a ≤ c.network + i)) := by
  intro i
  induction i with
  | zero =>
    intro _
    refine ⟨pool0, rfl, hc, rfl, rfl, ?_⟩
    intro a
    rw [hempty]
    simp only [mapHasKey, mapLookup, Option.isSome_none]
    constructor
    · intro h
      exact absurd h (by simp)
    · intro h
      omega
  | succ n ihn =>
    intro hle
    obtain ⟨p, hrun, hpc, hps, hpr, hinv⟩ := ihn (by omega)
    have hstep := tryAllocate_step c hbase p hpc n hinv req now hreq
    obtain ⟨hok, hinv'⟩ := hstep.1 (by omega)
    refine ⟨allocWriteback p req now (c.network + 1 + n), ?_, ?_, ?_, ?_, ?_⟩
    · show (allocateN req now pool0 n).bind _ = _
      rw [hrun]
      show (tryAllocatePure p req now).bind _ = _
      rw [hok]
      show Except.ok _ = _
      rw [List.range_succ, List.map_append]
      rfl
    · show p.cidr = c
      exact hpc
    · show p.subnet = pool0.subnet
      exact hps
    · show p.secondaryRangeName = pool0.secondaryRangeName
      exact hpr
    · exact hinv'

/-- After `usableCount` successful allocations from an empty pool, one more
allocation attempt fails with pool exhaustion. -/
theorem allocateN_exhausts (c : CIDR) (hbase : c.base < 2 ^ 32)
    (req : AllocationRequest) (now : Nat) (hreq : req.requestedIP = none)
    (pool0 : IPPool) (hc : pool0.cidr = c) (hempty : pool0.allocations = []) :
    allocateN req now pool0 (usableCount c + 1) =
      Except.error AllocErr.noAvailable := by
  obtain ⟨p, hrun, hpc, _, _, hinv⟩ :=
    allocateN_spec c hbase req now hreq pool0 hc hempty (usableCount c)
      (le_refl _)
  have hstep := tryAllocate_step c hbase p hpc (usableCount c) hinv req now hreq
  have herr := hstep.2 rfl
  show (allocateN req now pool0 (usableCount c)).bind _ = _
  rw [hrun]
  show (tryAllocatePure p req now).bind _ = _
  rw [herr]
  rfl

/-- Inversion: a successful allocation without a requested IP got its
address from `findAvailableIP`. -/
theorem tryAllocatePure_ok_inv (pool : IPPool) (req : AllocationRequest)
    (now : Nat) (res : AllocationResult) (pool' : IPPool)
    (hreq : req.requestedIP = none)
    (h : tryAllocatePure pool req now = Except.ok (res, pool')) :
    findAvailableIP pool.cidr pool.allocations = some res.ip := by
  cases hfa : findAvailableIP pool.cidr pool.allocations with
  | none =>
    rw [tryAllocatePure_scan_none pool req now hreq hfa] at h
    exact Except.noConfusion h
  | some a =>
    rw [tryAllocatePure_scan_some pool req now a hreq hfa] at h
    simp only [Except.ok.injEq, Prod.mk.injEq] at h
    rw [← h.1]

/-! ### Claim C3 -/

/-- C3: for every pool with a valid IPv4 cidr and any allocation map, a
`tryAllocate` attempt without a requested IP returns the numerically
smallest address strictly above the network address, strictly below the
broadcast address and absent from the map; consequently, starting from an
empty pool with `usableCount` usable addresses, that many successive
allocations return distinct IPs in strictly ascending order
(`network+1, network+2, …`), and the following allocation attempt fails
with pool exhaustion. -/
theorem claim_C3_first_fit_and_sequential_exhaustion :
    (∀ (pool : IPPool) (req : AllocationRequest) (now : Nat)
        (res : AllocationResult) (pool' : IPPool),
        pool.cidr.base < 2 ^ 32 → req.requestedIP = none →
        tryAllocatePure pool req now = Except.ok (res, pool') →
        pool.cidr.network < res.ip ∧ res.ip < pool.cidr.broadcast ∧
        mapHasKey pool.allocations res.ip = false ∧
        ∀ b, pool.cidr.network < b → b < pool.cidr.broadcast →
          mapHasKey pool.allocations b = false → res.ip ≤ b) ∧
    (∀ (pool : IPPool) (req : AllocationRequest) (now : Nat),
        pool.cidr.base < 2 ^ 32 → req.requestedIP = none →
        pool.allocations = [] →
        (∃ p, allocateN req now pool (usableCount pool.cidr) =
            Except.ok ((List.range (usableCount pool.cidr)).map
              (fun j => pool.cidr.network + 1 + j), p)) ∧
        ((List.range (usableCount pool.cidr)).map
            (fun j => pool.cidr.network + 1 + j)).Pairwise (· < ·) ∧
        allocateN req now pool (usableCount pool.cidr + 1) =
          Except.error AllocErr.noAvailable) := by
  constructor
  · intro pool req now res pool' hbase hreq hok
    have hfa := tryAllocatePure_ok_inv pool req now res pool' hreq hok
    exact (findAvailableIP_spec pool.cidr pool.allocations hbase).1 res.ip hfa
  · intro pool req now hbase hreq hempty
    refine ⟨?_, ?_, ?_⟩
    · obtain ⟨p, hrun, _⟩ :=
        allocateN_spec pool.cidr hbase req now hreq pool rfl hempty
          (usableCount pool.cidr) (le_refl _)
      exact ⟨p, hrun⟩
    · exact (List.pairwise_lt_range _).map _
        (fun a b hab => by omega)
    · exact allocateN_exhausts pool.cidr hbase req now hreq pool rfl hempty

/-- A concrete pool used by the claim witnesses: `10.0.0.0/29`
(network `167772160`, broadcast `167772167`, 6 usable addresses),
empty allocations. -/
def poolW : IPPool :=
  ⟨⟨167772160, 29⟩, "subnetA", "live", [], ⟨0, 0, 0, 0⟩⟩

/-- A concrete allocation request without a requested IP. -/
def reqW : AllocationRequest :=
  ⟨"ippool-subnetA", "p1", "ns", "uid-1", "nodeA", none⟩

/-- Witness for C3 at the concrete `/29` pool: its hypotheses hold there,
the six allocations succeed in ascending order and the seventh attempt is
exhausted. -/
theorem claim_C3_witness :
    (poolW.cidr.network < 167772161 ∧ 167772161 < poolW.cidr.broadcast ∧
      mapHasKey poolW.allocations 167772161 = false ∧
      ∀ b, poolW.cidr.network < b → b < poolW.cidr.broadcast →
        mapHasKey poolW.allocations b = false → 167772161 ≤ b) ∧
    ((∃ p, allocateN reqW 0 poolW (usableCount poolW.cidr) =
        Except.ok ((List.range (usableCount poolW.cidr)).map
          (fun j => poolW.cidr.network + 1 + j), p)) ∧
      ((List.range (usableCount poolW.cidr)).map
          (fun j => poolW.cidr.network + 1 + j)).Pairwise (· < ·) ∧
      allocateN reqW 0 poolW (usableCount poolW.cidr + 1) =
        Except.error AllocErr.noAvailable) := by
  constructor
  · exact claim_C3_first_fit_and_sequential_exhaustion.1 poolW reqW 0
      ⟨167772161, poolW.cidr, poolW.subnet, poolW.secondaryRangeName⟩
      (allocWriteback poolW reqW 0 167772161) (by decide) rfl (by rfl)
  · exact claim_C3_first_fit_and_sequential_exhaustion.2 poolW reqW 0
      (by decide) rfl rfl

/-! ### Claim C4: the allocation-key invariant -/

/-- The spec's pool invariant: every allocation key lies inside the pool's
cidr, is neither the network nor the broadcast address, and is unique. -/
def PoolKeysInv (pool : IPPool) : Prop :=
  (pool.allocations.map Prod.fst).Nodup ∧
  ∀ k ∈ pool.allocations.map Prod.fst,
    pool.cidr.containsIP k = true ∧ k ≠ pool.cidr.network ∧
      k ≠ pool.cidr.broadcast

/-- Every ok result of an allocation attempt writes back
`allocWriteback` at the returned IP. -/
theorem tryAllocatePure_ok_shape (pool : IPPool) (req : AllocationRequest)
    (now : Nat) (res : AllocationResult) (pool' : IPPool)
    (h : tryAllocatePure pool req now = Except.ok (res, pool')) :
    pool' = allocWriteback pool req now res.ip := by
  cases hreq : req.requestedIP with
  | none =>
    cases hfa : findAvailableIP pool.cidr pool.allocations with
    | none =>
      rw [tryAllocatePure_scan_none pool req now hreq hfa] at h
      exact Except.noConfusion h
    | some a =>
      rw [tryAllocatePure_scan_some pool req now a hreq hfa] at h
      simp only [Except.ok.injEq, Prod.mk.injEq] at h
      rw [← h.2, ← h.1]
  | some rip =>
    cases hk : mapHasKey pool.allocations rip with
    | true =>
      rw [tryAllocatePure_req_taken pool req now rip hreq hk] at h
      exact Except.noConfusion h
    | false =>
      rw [tryAllocatePure_req_free pool req now rip hreq hk] at h
      simp only [Except.ok.injEq, Prod.mk.injEq] at h
      rw [← h.2, ← h.1]

/-- The new key of a successful requested-IP-free allocation is absent from
the pre-state map and strictly between network and broadcast. -/
theorem tryAllocatePure_ok_newkey (pool : IPPool) (req : AllocationRequest)
    (now : Nat) (res : AllocationResult) (pool' : IPPool)
    (hbase : pool.cidr.base < 2 ^ 32) (hreq : req.requestedIP = none)
    (h : tryAllocatePure pool req now = Except.ok (res, pool')) :
    pool.cidr.network < res.ip ∧ res.ip < pool.cidr.broadcast ∧
      mapHasKey pool.allocations res.ip = false := by
  have hfa := tryAllocatePure_ok_inv pool req now res pool' hreq h
  obtain ⟨h1, h2, h3, _⟩ :=
    (findAvailableIP_spec pool.cidr pool.allocations hbase).1 res.ip hfa
  exact ⟨h1, h2, h3⟩

/-- C4 counterexample input: pool `10.0.0.0/24` with empty allocations. -/
def poolC4 : IPPool :=
  ⟨⟨167772160, 24⟩, "subnetA", "live", [], ⟨0, 0, 0, 0⟩⟩

/-- C4 counterexample request: requested IP `192.168.1.1` (= 3232235777),
outside the pool's cidr. -/
def reqC4 : AllocationRequest :=
  ⟨"ippool-subnetA", "p1", "ns", "uid-1", "nodeA", some 3232235777⟩

/-- C4 is false as stated: an allocation attempt carrying a requested IP
outside the pool's cidr succeeds (the code only checks map absence) and
records a key outside the cidr, breaking the claimed invariant. -/
theorem claim_C4_counterexample :
    tryAllocatePure poolC4 reqC4 0 =
      Except.ok
        (⟨3232235777, poolC4.cidr, poolC4.subnet, poolC4.secondaryRangeName⟩,
         allocWriteback poolC4 reqC4 0 3232235777) ∧
    poolC4.cidr.containsIP 3232235777 = false ∧
    PoolKeysInv poolC4 ∧
    ¬ PoolKeysInv (allocWriteback poolC4 reqC4 0 3232235777) := by
  refine ⟨by rfl, by decide, ?_, ?_⟩
  · unfold PoolKeysInv poolC4
    decide
  · unfold PoolKeysInv allocWriteback poolC4 reqC4
    decide

/-- C4 as amended: `Allocate` without a requested IP and `Release` preserve
the invariant (every allocation key inside the cidr, distinct from network
and broadcast, unique); an `Allocate` carrying a requested IP only checks
that the requested key is absent from the map, so it preserves key
uniqueness but may record an address outside the cidr. -/
theorem claim_C4_amended_invariant_preservation :
    (∀ (pool : IPPool) (req : AllocationRequest) (now : Nat)
        (res : AllocationResult) (pool' : IPPool),
        pool.cidr.base < 2 ^ 32 → req.requestedIP = none →
        PoolKeysInv pool →
        tryAllocatePure pool req now = Except.ok (res, pool') →
        PoolKeysInv pool') ∧
    (∀ (pool : IPPool) (ip : Nat) (now : Nat),
        PoolKeysInv pool → PoolKeysInv (tryReleasePure pool ip now)) ∧
    (∀ (pool : IPPool) (req : AllocationRequest) (now : Nat)
        (res : AllocationResult) (pool' : IPPool),
        PoolKeysInv pool →
        tryAllocatePure pool req now = Except.ok (res, pool') →
        (pool'.allocations.map Prod.fst).Nodup) := by
  have hwb : ∀ (pool : IPPool) (req : AllocationRequest) (now : Nat) (ip : Nat),
      (pool.allocations.map Prod.fst).Nodup →
      (((allocWriteback pool req now ip).allocations.map Prod.fst).Nodup ∧
       ∀ k ∈ (allocWriteback pool req now ip).allocations.map Prod.fst,
         k = ip ∨ k ∈ pool.allocations.map Prod.fst) := by
    intro pool req now ip hnd
    unfold allocWriteback mapInsert
    constructor
    · simp only [List.map_cons, List.nodup_cons]
      constructor
      · intro hc
        have := (mapHasKey_iff_mem_keys (mapErase pool.allocations ip) ip).mpr hc
        rw [mapHasKey_erase] at this
        exact this.1 rfl
      · exact mapErase_keys_nodup pool.allocations ip hnd
    · intro k hk
      simp only [List.map_cons, List.mem_cons] at hk
      rcases hk with hk | hk
      · exact Or.inl hk
      · exact Or.inr (mapErase_keys_subset pool.allocations ip k hk)
  refine ⟨?_, ?_, ?_⟩
  · intro pool req now res pool' hbase hreq hinv hok
    obtain ⟨hn1, hn2, hn3⟩ :=
      tryAllocatePure_ok_newkey pool req now res pool' hbase hreq hok
    rw [tryAllocatePure_ok_shape pool req now res pool' hok]
    obtain ⟨hnd, hmem⟩ := hwb pool req now res.ip hinv.1
    refine ⟨hnd, ?_⟩
    intro k hk
    have hcid : (allocWriteback pool req now res.ip).cidr = pool.cidr := rfl
    rw [hcid]
    rcases hmem k hk with hk' | hk'
    · subst hk'
      refine ⟨(CIDR.contains_iff pool.cidr res.ip).mpr ⟨by omega, by omega⟩,
        by omega, by omega⟩
    · exact hinv.2 k hk'
  · intro pool ip now hinv
    unfold tryReleasePure mapDelete
    refine ⟨mapErase_keys_nodup pool.allocations ip hinv.1, ?_⟩
    intro k hk
    exact hinv.2 k (mapErase_keys_subset pool.allocations ip k hk)
  · intro pool req now res pool' hinv hok
    rw [tryAllocatePure_ok_shape pool req now res pool' hok]
    exact (hwb pool req now res.ip hinv.1).1

/-- Witness for the amended C4 at the concrete `/29` pool. -/
theorem claim_C4_witness :
    PoolKeysInv (allocWriteback poolW reqW 0 167772161) ∧
    PoolKeysInv (tryReleasePure poolW 167772161 0) := by
  constructor
  · exact claim_C4_amended_invariant_preservation.1 poolW reqW 0
      ⟨167772161, poolW.cidr, poolW.subnet, poolW.secondaryRangeName⟩
      (allocWriteback poolW reqW 0 167772161) (by decide) rfl
      (by unfold PoolKeysInv poolW; decide) (by rfl)
  · exact claim_C4_amended_invariant_preservation.2.1 poolW 167772161 0
      (by unfold PoolKeysInv poolW; decide)

/-! ### Claim C5: status recomputation on every mutation -/

/-- C5: after every successful pool mutation by an allocation attempt or a
release attempt, the pool's status satisfies `allocated = |allocations|`,
`available = capacity - allocated`, and
`capacity = 2^(32-prefix) - 2` for `prefix < 32` and `1` for `prefix = 32`. -/
theorem claim_C5_status_recomputation :
    (∀ (pool : IPPool) (req : AllocationRequest) (now : Nat)
        (res : AllocationResult) (pool' : IPPool),
        tryAllocatePure pool req now = Except.ok (res, pool') →
        pool'.status.allocated = (mapLen pool'.allocations : Int) ∧
        pool'.status.available = pool'.status.capacity - pool'.status.allocated ∧
        pool'.status.capacity =
          (if pool'.cidr.pfxLen = 32 then 1
           else (2 ^ (32 - pool'.cidr.pfxLen) : Int) - 2)) ∧
    (∀ (pool : IPPool) (ip : Nat) (now : Nat),
        (tryReleasePure pool ip now).status.allocated =
          (mapLen (tryReleasePure pool ip now).allocations : Int) ∧
        (tryReleasePure pool ip now).status.available =
          (tryReleasePure pool ip now).status.capacity -
            (tryReleasePure pool ip now).status.allocated ∧
        (tryReleasePure pool ip now).status.capacity =
          (if (tryReleasePure pool ip now).cidr.pfxLen = 32 then 1
           else (2 ^ (32 - (tryReleasePure pool ip now).cidr.pfxLen) : Int) - 2)) := by
  constructor
  · intro pool req now res pool' hok
    rw [tryAllocatePure_ok_shape pool req now res pool' hok]
    exact ⟨rfl, rfl, rfl⟩
  · intro pool ip now
    exact ⟨rfl, rfl, rfl⟩

/-- Witness for C5 at the concrete `/29` pool. -/
theorem claim_C5_witness :
    (allocWriteback poolW reqW 0 167772161).status.allocated =
      (mapLen (allocWriteback poolW reqW 0 167772161).allocations : Int) ∧
    (allocWriteback poolW reqW 0 167772161).status.available =
      (allocWriteback poolW reqW 0 167772161).status.capacity -
        (allocWriteback poolW reqW 0 167772161).status.allocated ∧
    (allocWriteback poolW reqW 0 167772161).status.capacity =
      (if (allocWriteback poolW reqW 0 167772161).cidr.pfxLen = 32 then 1
       else (2 ^ (32 - (allocWriteback poolW reqW 0 167772161).cidr.pfxLen) : Int) - 2) :=
  claim_C5_status_recomputation.1 poolW reqW 0
    ⟨167772161, poolW.cidr, poolW.subnet, poolW.secondaryRangeName⟩
    (allocWriteback poolW reqW 0 167772161) (by rfl)

/-! ### Claim C8: allocate/release round trip -/

/-- C8: a successful allocation without a requested IP followed by a release
of the returned IP restores the pool's allocation map exactly; releasing a
key absent from the map leaves the allocation map unchanged while still
refreshing the status fields. -/
theorem claim_C8_roundtrip :
    (∀ (pool : IPPool) (req : AllocationRequest) (now now2 : Nat)
        (res : AllocationResult) (pool' : IPPool),
        pool.cidr.base < 2 ^ 32 → req.requestedIP = none →
        tryAllocatePure pool req now = Except.ok (res, pool') →
        (tryReleasePure pool' res.ip now2).allocations = pool.allocations) ∧
    (∀ (pool : IPPool) (ip : Nat) (now : Nat),
        mapHasKey pool.allocations ip = false →
        (tryReleasePure pool ip now).allocations = pool.allocations ∧
        (tryReleasePure pool ip now).status =
          ⟨calculateCapacity pool.cidr, (mapLen pool.allocations : Int),
           calculateCapacity pool.cidr - (mapLen pool.allocations : Int),
           now⟩) := by
  constructor
  · intro pool req now now2 res pool' hbase hreq hok
    obtain ⟨_, _, habsent⟩ :=
      tryAllocatePure_ok_newkey pool req now res pool' hbase hreq hok
    rw [tryAllocatePure_ok_shape pool req now res pool' hok]
    show mapDelete (mapInsert pool.allocations res.ip _) res.ip = _
    exact mapDelete_insert_absent pool.allocations res.ip _ habsent
  · intro pool ip now habsent
    have hdel : mapDelete pool.allocations ip = pool.allocations :=
      mapDelete_of_absent pool.allocations ip habsent
    constructor
    · show mapDelete pool.allocations ip = pool.allocations
      exact hdel
    · show (⟨calculateCapacity pool.cidr,
          (mapLen (mapDelete pool.allocations ip) : Int),
          calculateCapacity pool.cidr -
            (mapLen (mapDelete pool.allocations ip) : Int), now⟩ : IPPoolStatus) = _
      rw [hdel]

/-- Witness for C8 at the concrete `/29` pool: allocate then release
round-trips, and releasing an absent key is a status-refreshing no-op. -/
theorem claim_C8_witness :
    (tryReleasePure (allocWriteback poolW reqW 0 167772161) 167772161 7).allocations =
      poolW.allocations ∧
    ((tryReleasePure poolW 167772165 3).allocations = poolW.allocations ∧
      (tryReleasePure poolW 167772165 3).status =
        ⟨calculateCapacity poolW.cidr, (mapLen poolW.allocations : Int),
         calculateCapacity poolW.cidr - (mapLen poolW.allocations : Int), 3⟩) := by
  constructor
  · exact claim_C8_roundtrip.1 poolW reqW 0 7
      ⟨167772161, poolW.cidr, poolW.subnet, poolW.secondaryRangeName⟩
      (allocWriteback poolW reqW 0 167772161) (by decide) rfl (by rfl)
  · exact claim_C8_roundtrip.2 poolW 167772165 3 (by decide)

/-! ### Claim C2: the `/32` pool -/

/-- C2 failing input: a pool whose cidr is `10.0.0.5/32`, empty
allocations. -/
def poolC2 : IPPool :=
  ⟨⟨167772165, 32⟩, "subnetA", "live", [], ⟨0, 0, 0, 0⟩⟩

/-- C2 fails on the code: for a `/32` pool the scanner advances past the
network address before the loop, and the network address of a `/32` is its
only address, so `findAvailableIP` finds nothing and an `Allocate` attempt
without a requested IP fails with pool exhaustion — even though
`calculateCapacity` itself counts one usable IP for a `/32`. -/
theorem claim_C2_slash32_failing_input :
    poolC2.cidr.network = 167772165 ∧
    poolC2.cidr.broadcast = 167772165 ∧
    calculateCapacity poolC2.cidr = 1 ∧
    findAvailableIP poolC2.cidr poolC2.allocations = none ∧
    tryAllocatePure poolC2 reqW 0 = Except.error AllocErr.noAvailable := by
  refine ⟨by decide, by decide, by decide, by decide, by rfl⟩

/-! ### Claims C6 and C7: the CAS retry loop -/

/-- The `MaxRetries` constant of part_002. -/
def MaxRetries : Nat := 10

/-- The `RetryDelay` constant of part_002 in milliseconds. -/
def RetryDelayMs : Nat := 100

/-- The outcome of one `tryAllocate` / `tryRelease` attempt as the retry
loop classifies it: success, an optimistic-lock conflict
(`errors.IsConflict`), or any other error.  Errors carry an identifying
payload so "the last observed error" is expressible. -/
inductive AttemptOutcome (α : Type) where
  | success (a : α)
  | conflict (e : Nat)
  | fatal (e : Nat)
  deriving DecidableEq

/-- The final result of `Allocator.Allocate` / `Allocator.Release`:
success, a non-conflict error surfaced from the attempt that produced it,
or the exhaustion error `failed to … after 10 retries: %w` wrapping the
last observed conflict error. -/
inductive RetryOutcome (α : Type) where
  | ok (a : α)
  | err (e : Nat)
  | exhausted (last : Option Nat)
  deriving DecidableEq

/-- Observable trace of one run of the retry loop: its result, the number
of attempts performed, and the sleeps performed (in order, in ms). -/
structure RetryTrace (α : Type) where
  result : RetryOutcome α
  attempts : Nat
  sleepsMs : List Nat

/-- The body of the retry loop of `Allocator.Allocate` / `Allocator.Release`
(part_002 lines 67-93 and 199-222): `i` is the loop index; before every
attempt except the first the loop sleeps `RetryDelay * 2^(i-1)`; a conflict
stores the error and continues; anything else returns from this attempt. -/
def retryGo (outcomes : Nat → AttemptOutcome α) :
    Nat → Nat → Option Nat → List Nat → RetryTrace α
  | 0, i, last, sleeps => ⟨RetryOutcome.exhausted last, i, sleeps⟩
  | fuel + 1, i, last, sleeps =>
    let sleeps' := if 0 < i then sleeps ++ [RetryDelayMs * 2 ^ (i - 1)]
      else sleeps
    match outcomes i with
    | AttemptOutcome.success a => ⟨RetryOutcome.ok a, i + 1, sleeps'⟩
    | AttemptOutcome.conflict e => retryGo outcomes fuel (i + 1) (some e) sleeps'
    | AttemptOutcome.fatal e => ⟨RetryOutcome.err e, i + 1, sleeps'⟩

/-- The whole retry loop: `for i := 0; i < MaxRetries; i++ { … }` followed
by the exhaustion error. -/
def retryLoop (outcomes : Nat → AttemptOutcome α) : RetryTrace α :=
  retryGo outcomes MaxRetries 0 none []

theorem retryGo_attempts_le (outcomes : Nat → AttemptOutcome α) :
    ∀ fuel i last sleeps,
      (retryGo outcomes fuel i last sleeps).attempts ≤ i + fuel := by
  intro fuel
  induction fuel with
  | zero => intro i last sleeps; simp [retryGo]
  | succ n ih =>
    intro i last sleeps
    unfold retryGo
    cases outcomes i with
    | success a => simp only; omega
    | conflict e =>
      simp only
      have := ih (i + 1) (some e)
        (if 0 < i then sleeps ++ [RetryDelayMs * 2 ^ (i - 1)] else sleeps)
      omega
    | fatal e => simp only; omega

theorem retryGo_sleeps_shape (outcomes : Nat → AttemptOutcome α) :
    ∀ fuel i last sleeps,
      sleeps = (List.range (i - 1)).map (fun j => RetryDelayMs * 2 ^ j) →
      (0 < fuel → 0 < i → sleeps = (List.range (i - 1)).map
        (fun j => RetryDelayMs * 2 ^ j)) →
      (retryGo outcomes fuel i last sleeps).sleepsMs =
        (List.range ((retryGo outcomes fuel i last sleeps).attempts - 1)).map
          (fun j => RetryDelayMs * 2 ^ j) := by
  intro fuel
  induction fuel with
  | zero =>
    intro i last sleeps hs _
    simpa [retryGo] using hs
  | succ n ih =>
    intro i last sleeps hs _
    have hstep : (if 0 < i then sleeps ++ [RetryDelayMs * 2 ^ (i - 1)]
        else sleeps) =
        (List.range i).map (fun j => RetryDelayMs * 2 ^ j) := by
      by_cases hi : 0 < i
      · rw [if_pos hi, hs]
        have hr : List.range i = List.range (i - 1) ++ [i - 1] := by
          conv_lhs => rw [show i = (i - 1) + 1 by omega]
          exact List.range_succ (i - 1)
        rw [hr, List.map_append]
        simp
      · rw [if_neg hi]
        have : i = 0 := by omega
        subst this
        simpa using hs
    unfold retryGo
    cases outcomes i with
    | success a =>
      simp only [hstep, Nat.add_sub_cancel]
    | conflict e =>
      simp only
      have := ih (i + 1) (some e)
        ((List.range i).map (fun j => RetryDelayMs * 2 ^ j))
        (by simp) (by intro _ _; simp)
      rw [hstep]
      simpa using this
    | fatal e =>
      simp only [hstep, Nat.add_sub_cancel]

theorem retryGo_stops_at (outcomes : Nat → AttemptOutcome α) :
    ∀ fuel i last sleeps j,
      i ≤ j → j < i + fuel →
      (∀ l, i ≤ l → l < j → ∃ el, outcomes l = AttemptOutcome.conflict el) →
      ((∀ e, outcomes j = AttemptOutcome.fatal e →
        (retryGo outcomes fuel i last sleeps).result = RetryOutcome.err e ∧
        (retryGo outcomes fuel i last sleeps).attempts = j + 1) ∧
       (∀ a, outcomes j = AttemptOutcome.success a →
        (retryGo outcomes fuel i last sleeps).result = RetryOutcome.ok a ∧
        (retryGo outcomes fuel i last sleeps).attempts = j + 1)) := by
  intro fuel
  induction fuel with
  | zero => intro i last sleeps j h1 h2 _; omega
  | succ n ih =>
    intro i last sleeps j h1 h2 hconf
    rcases Nat.eq_or_lt_of_le h1 with hij | hij
    · subst hij
      constructor
      · intro e he
        unfold retryGo
        rw [he]
        exact ⟨rfl, rfl⟩
      · intro a ha
        unfold retryGo
        rw [ha]
        exact ⟨rfl, rfl⟩
    · obtain ⟨ei, hei⟩ := hconf i (le_refl _) hij
      unfold retryGo
      rw [hei]
      simp only
      exact ih (i + 1) (some ei) _ j hij (by omega)
        (fun l hl1 hl2 => hconf l (by omega) hl2)

theorem retryGo_exhausts (outcomes : Nat → AttemptOutcome α)
    (e : Nat → Nat) :
    ∀ fuel i last sleeps,
      0 < fuel →
      (∀ l, i ≤ l → l < i + fuel → outcomes l = AttemptOutcome.conflict (e l)) →
      (retryGo outcomes fuel i last sleeps).result =
        RetryOutcome.exhausted (some (e (i + fuel - 1))) ∧
      (retryGo outcomes fuel i last sleeps).attempts = i + fuel := by
  intro fuel
  induction fuel with
  | zero => intro i last sleeps h; omega
  | succ n ih =>
    intro i last sleeps _ hall
    have hi := hall i (le_refl _) (by omega)
    unfold retryGo
    rw [hi]
    simp only
    by_cases hn : 0 < n
    · have := ih (i + 1) (some (e i))
        (if 0 < i then sleeps ++ [RetryDelayMs * 2 ^ (i - 1)] else sleeps) hn
        (fun l hl1 hl2 => hall l (by omega) (by omega))
      constructor
      · rw [this.1]
        have harg : i + 1 + n - 1 = i + (n + 1) - 1 := by omega
        rw [harg]
      · rw [this.2]
        omega
    · have hn0 : n = 0 := by omega
      subst hn0
      refine ⟨?_, ?_⟩
      · simp [retryGo]
      · simp [retryGo]

/-- C6: the CAS retry loop makes at most 10 attempts; before attempt `i+1`
(1-indexed attempt `i`'s successor) it sleeps `100ms * 2^(i-1)`, so the
sleep list of any run is an initial segment of that schedule; a non-conflict
outcome (success or other error) is returned immediately from the attempt
that produced it; after 10 conflict attempts the loop fails with the
exhaustion error carrying the last observed conflict error. -/
theorem claim_C6_retry_policy {α : Type} (outcomes : Nat → AttemptOutcome α) :
    ((retryLoop outcomes).attempts ≤ MaxRetries ∧ MaxRetries = 10) ∧
    ((retryLoop outcomes).sleepsMs =
        (List.range ((retryLoop outcomes).attempts - 1)).map
          (fun j => RetryDelayMs * 2 ^ j) ∧ RetryDelayMs = 100) ∧
    (∀ j e, j < MaxRetries →
        (∀ l, l < j → ∃ el, outcomes l = AttemptOutcome.conflict el) →
        outcomes j = AttemptOutcome.fatal e →
        (retryLoop outcomes).result = RetryOutcome.err e ∧
        (retryLoop outcomes).attempts = j + 1) ∧
    (∀ j a, j < MaxRetries →
        (∀ l, l < j → ∃ el, outcomes l = AttemptOutcome.conflict el) →
        outcomes j = AttemptOutcome.success a →
        (retryLoop outcomes).result = RetryOutcome.ok a ∧
        (retryLoop outcomes).attempts = j + 1) ∧
    (∀ e : Nat → Nat,
        (∀ l, l < MaxRetries → outcomes l = AttemptOutcome.conflict (e l)) →
        (retryLoop outcomes).result = RetryOutcome.exhausted (some (e 9)) ∧
        (retryLoop outcomes).attempts = MaxRetries) := by
  refine ⟨⟨?_, rfl⟩, ⟨?_, rfl⟩, ?_, ?_, ?_⟩
  · have := retryGo_attempts_le outcomes MaxRetries 0 none []
    simpa [retryLoop] using this
  · exact retryGo_sleeps_shape outcomes MaxRetries 0 none [] (by simp)
      (fun _ h => absurd h (by omega))
  · intro j e hj hconf he
    exact (retryGo_stops_at outcomes MaxRetries 0 none [] j (by omega)
      (by omega) (fun l _ hl => hconf l hl)).1 e he
  · intro j a hj hconf ha
    exact (retryGo_stops_at outcomes MaxRetries 0 none [] j (by omega)
      (by omega) (fun l _ hl => hconf l hl)).2 a ha
  · intro e hall
    have h := retryGo_exhausts outcomes e MaxRetries 0 none []
      (by decide) (fun l _ hl => hall l (by simpa using hl))
    exact ⟨h.1, h.2⟩

/-- A concrete outcome stream for the C6 witness: conflicts on the first
two attempts, then success. -/
def outcomesC6 : Nat → AttemptOutcome Nat :=
  fun i => if i < 2 then AttemptOutcome.conflict i else AttemptOutcome.success 42

/-- An outcome stream that conflicts on every attempt. -/
def allConflictOutcomes : Nat → AttemptOutcome Unit :=
  fun i => AttemptOutcome.conflict i

/-- Witness for C6: on the conflict-conflict-success stream the loop
returns the success from attempt 3 after sleeping per the schedule, and on
the all-conflict stream it exhausts after 10 attempts carrying the last
conflict error. -/
theorem claim_C6_witness :
    ((retryLoop outcomesC6).result = RetryOutcome.ok 42 ∧
      (retryLoop outcomesC6).attempts = 2 + 1) ∧
    (retryLoop outcomesC6).attempts ≤ MaxRetries ∧
    (retryLoop outcomesC6).sleepsMs =
      (List.range ((retryLoop outcomesC6).attempts - 1)).map
        (fun j => RetryDelayMs * 2 ^ j) ∧
    ((retryLoop allConflictOutcomes).result =
        RetryOutcome.exhausted (some 9) ∧
      (retryLoop allConflictOutcomes).attempts = MaxRetries) := by
  refine ⟨?_, ?_, ?_, ?_⟩
  · exact (claim_C6_retry_policy outcomesC6).2.2.2.1 2 42 (by decide)
      (fun l hl => ⟨l, by
        have hl' : l = 0 ∨ l = 1 := by omega
        rcases hl' with h | h <;> subst h <;> rfl⟩) (by rfl)
  · exact (claim_C6_retry_policy outcomesC6).1.1
  · exact (claim_C6_retry_policy outcomesC6).2.1.1
  · exact (claim_C6_retry_policy allConflictOutcomes).2.2.2.2
      (fun l => l) (fun l _ => rfl)

/-- Geometric sum of the backoff schedule. -/
theorem backoff_schedule_sum (n : Nat) :
    ((List.range n).map (fun j => RetryDelayMs * 2 ^ j)).sum =
      RetryDelayMs * (2 ^ n - 1) := by
  induction n with
  | zero => simp
  | succ m ih =>
    rw [List.range_succ, List.map_append, List.sum_append, ih]
    have h2 : 2 ^ (m + 1) = 2 * 2 ^ m := by rw [pow_succ]; ring
    have h1 : 1 ≤ 2 ^ m := Nat.one_le_two_pow
    show RetryDelayMs * (2 ^ m - 1) + (RetryDelayMs * 2 ^ m + 0) = _
    rw [h2]
    show 100 * (2 ^ m - 1) + (100 * 2 ^ m + 0) = 100 * (2 * 2 ^ m - 1)
    omega

/-- C7 is false as stated: the worst-case cumulative sleep of the bounded
retry sequence (attained on the all-conflict stream) is 51100 ms ≈ 51 s,
not approximately 25 s (it is not even within [20 s, 30 s]). -/
theorem claim_C7_counterexample :
    (retryLoop allConflictOutcomes).sleepsMs.sum = 51100 ∧
    ¬ (20000 ≤ (retryLoop allConflictOutcomes).sleepsMs.sum ∧
        (retryLoop allConflictOutcomes).sleepsMs.sum ≤ 30000) := by
  refine ⟨by decide, by decide⟩

/-- C7 as amended: the worst-case cumulative sleep across the allocator's
bounded retry sequence is 51100 ms (≈ 51 s): every run sleeps at most that
much, and the all-conflict run attains it. -/
theorem claim_C7_amended_total_backoff :
    (∀ (outcomes : Nat → AttemptOutcome Unit),
        (retryLoop outcomes).sleepsMs.sum ≤ 51100) ∧
    (retryLoop allConflictOutcomes).sleepsMs.sum = 51100 := by
  constructor
  · intro outcomes
    have hshape := retryGo_sleeps_shape outcomes MaxRetries 0 none [] (by simp)
      (fun _ h => absurd h (by omega))
    have hatt := retryGo_attempts_le outcomes MaxRetries 0 none []
    show (retryGo outcomes MaxRetries 0 none []).sleepsMs.sum ≤ 51100
    rw [hshape, backoff_schedule_sum]
    have hA : (retryGo outcomes MaxRetries 0 none []).attempts - 1 ≤ 9 := by
      have : MaxRetries = 10 := rfl
      omega
    have hpow : 2 ^ ((retryGo outcomes MaxRetries 0 none []).attempts - 1) ≤ 2 ^ 9 :=
      Nat.pow_le_pow_right (by omega) hA
    show RetryDelayMs * _ ≤ 51100
    have hrd : RetryDelayMs = 100 := rfl
    rw [hrd]
    omega
  · decide

/-! ### Claim C1: ordering of the migration ADD -/

/-- The observable pool/cloud actions of `cmdAdd` (part_000 lines 204-295)
relevant to the migration ordering, in program order.  `stepUpdateNIC`
carries the full alias list written by the
`Instances.UpdateNetworkInterface` call; `stepWaitOp` is the corresponding
`waitForInstanceOperation` completion. -/
inductive AddStep where
  | stepAllocate (poolName : String)
  | stepGetAllocation (poolName : String) (ip : Nat)
  | stepGetInstance (name : String)
  | stepUpdateNIC (inst : String) (aliases : List Nat)
  | stepWaitOp (inst : String)
  deriving DecidableEq, Repr

/-- The action trace of a `cmdAdd` run that completes successfully:
without the `live.cast.ai/ip` annotation it allocates from the pool; with
it, it calls `GetAllocation` and uses the requested IP; with the
`live.cast.ai/original-instance` annotation it fetches the source instance,
writes its alias list with the requested `/32` filtered out, and waits for
that operation; finally it appends the new `/32` to the self instance's
alias list and waits.  (A run failing at some step issues a prefix of this
trace.) -/
def cmdAddSteps (self : String) (selfAliases origAliases : List Nat)
    (reqIP? : Option Nat) (origInst? : Option String)
    (poolName : String) (allocIP : Nat) : List AddStep :=
  (match reqIP? with
   | none => [AddStep.stepAllocate poolName]
   | some ip => [AddStep.stepGetAllocation poolName ip]) ++
  (match origInst? with
   | some orig =>
     [AddStep.stepGetInstance orig,
      AddStep.stepUpdateNIC orig
        (origAliases.filter (fun a => some a ≠ reqIP?)),
      AddStep.stepWaitOp orig]
   | none => []) ++
  [AddStep.stepUpdateNIC self
     (selfAliases ++ [(match reqIP? with | some ip => ip | none => allocIP)]),
   AddStep.stepWaitOp self]

/-- Modelled cloud semantics for the two NIC updates of a migration ADD:
each update takes effect atomically at one instant between its issuance and
the completion observed by its wait.  `dEff` is the effect instant of the
source-side detach (which writes `origAliases` with `ip` filtered out) and
`aEff` of the destination-side attach (which writes
`selfAliases ++ [ip]`); the result is instance `inst`'s alias list at
instant `t`. -/
def aliasListAt (self orig : String) (selfAliases origAliases : List Nat)
    (ip : Nat) (dEff aEff t : Nat) (inst : String) : List Nat :=
  if inst = orig then
    (if dEff ≤ t then origAliases.filter (fun a => a ≠ ip) else origAliases)
  else if inst = self then
    (if aEff ≤ t then selfAliases ++ [ip] else selfAliases)
  else []

/-- C1: in a `cmdAdd` run where the pod carries both the requested-IP and
the original-instance annotations, the driver never issues a pool
`Allocate` and does issue `GetAllocation`; the source-side alias-removal
update (trace index 2) and its completion wait (index 3) precede the
destination-side alias-append update (index 4); consequently, for any
instants at which the two updates take effect within their issue/wait
windows, there is no instant at which both the source and the destination
instance hold the `/32` for the requested IP. -/
theorem claim_C1_migration_add_ordering (self orig : String)
    (selfAliases origAliases : List Nat) (ip allocIP : Nat)
    (poolName : String) (hne : self ≠ orig) (hdst : ip ∉ selfAliases) :
    (∀ pn, AddStep.stepAllocate pn ∉
      cmdAddSteps self selfAliases origAliases (some ip) (some orig)
        poolName allocIP) ∧
    AddStep.stepGetAllocation poolName ip ∈
      cmdAddSteps self selfAliases origAliases (some ip) (some orig)
        poolName allocIP ∧
    ((cmdAddSteps self selfAliases origAliases (some ip) (some orig)
        poolName allocIP).get? 2 =
      some (AddStep.stepUpdateNIC orig
        (origAliases.filter (fun a => some a ≠ some ip))) ∧
     (cmdAddSteps self selfAliases origAliases (some ip) (some orig)
        poolName allocIP).get? 3 = some (AddStep.stepWaitOp orig) ∧
     (cmdAddSteps self selfAliases origAliases (some ip) (some orig)
        poolName allocIP).get? 4 =
      some (AddStep.stepUpdateNIC self (selfAliases ++ [ip]))) ∧
    (∀ dEff aEff t : Nat, dEff ≤ 3 → 4 ≤ aEff →
      ¬ (ip ∈ aliasListAt self orig selfAliases origAliases ip dEff aEff t orig ∧
         ip ∈ aliasListAt self orig selfAliases origAliases ip dEff aEff t self)) := by
  refine ⟨?_, ?_, ⟨rfl, rfl, rfl⟩, ?_⟩
  · intro pn hmem
    simp [cmdAddSteps] at hmem
  · simp [cmdAddSteps]
  · intro dEff aEff t hd ha hcon
    obtain ⟨hsrc, hdst'⟩ := hcon
    have horn : ¬ (orig = self) := fun h => hne h.symm
    unfold aliasListAt at hsrc hdst'
    rw [if_pos rfl] at hsrc
    rw [if_neg hne, if_pos rfl] at hdst'
    by_cases hdt : dEff ≤ t
    · rw [if_pos hdt] at hsrc
      rw [List.mem_filter] at hsrc
      simp at hsrc
    · rw [if_neg hdt] at hsrc
      by_cases hat : aEff ≤ t
      · omega
      · rw [if_neg hat] at hdst'
        exact hdst hdst'

/-- Witness for C1 at concrete instances and alias lists. -/
theorem claim_C1_witness :
    (∀ pn, AddStep.stepAllocate pn ∉
      cmdAddSteps "nodeB" [167772170] [167772165] (some 167772165)
        (some "nodeA") "ippool-subnetA" 0) ∧
    AddStep.stepGetAllocation "ippool-subnetA" 167772165 ∈
      cmdAddSteps "nodeB" [167772170] [167772165] (some 167772165)
        (some "nodeA") "ippool-subnetA" 0 ∧
    ((cmdAddSteps "nodeB" [167772170] [167772165] (some 167772165)
        (some "nodeA") "ippool-subnetA" 0).get? 2 =
      some (AddStep.stepUpdateNIC "nodeA"
        ([167772165].filter (fun a => some a ≠ some 167772165))) ∧
     (cmdAddSteps "nodeB" [167772170] [167772165] (some 167772165)
        (some "nodeA") "ippool-subnetA" 0).get? 3 =
        some (AddStep.stepWaitOp "nodeA") ∧
     (cmdAddSteps "nodeB" [167772170] [167772165] (some 167772165)
        (some "nodeA") "ippool-subnetA" 0).get? 4 =
      some (AddStep.stepUpdateNIC "nodeB" ([167772170] ++ [167772165]))) ∧
    (∀ dEff aEff t : Nat, dEff ≤ 3 → 4 ≤ aEff →
      ¬ (167772165 ∈ aliasListAt "nodeB" "nodeA" [167772170] [167772165]
            167772165 dEff aEff t "nodeA" ∧
         167772165 ∈ aliasListAt "nodeB" "nodeA" [167772170] [167772165]
            167772165 dEff aEff t "nodeB")) :=
  claim_C1_migration_add_ordering "nodeB" "nodeA" [167772170] [167772165]
    167772165 0 "ippool-subnetA" (by decide) (by decide)

/-! ### Claim C9: error propagation in the provisioner -/

/-- An error returned by a cloud or cluster call; `notFound` is true exactly
for gRPC `codes.NotFound` (range.go `isNotFound`). -/
structure ProvErr where
  notFound : Bool
  msg : String
  deriving DecidableEq, Repr

/-- The instance-metadata-derived cluster identity
(`provisioner.getClusterInfo`). -/
structure ClusterInfo where
  projectID : String
  region : String
  subnetworkName : String
  networkName : String
  deriving DecidableEq, Repr

/-- The subnet as fetched by `Provision`: its secondary ranges as
(name, cidr) pairs and its fingerprint. -/
structure SubnetInfo where
  secondaryRanges : List (String × String)
  fingerprint : String
  deriving DecidableEq, Repr

/-- The outcomes the environment gives to each RPC `Provision` may issue. -/
structure ProvEnv where
  clusterInfo : Except ProvErr ClusterInfo
  getSubnet : Except ProvErr SubnetInfo
  getInternalRange : Except ProvErr String
  createInternalRange : Except ProvErr Unit
  waitInternalRange : Except ProvErr String
  patchSubnet : Except ProvErr Unit
  waitPatch : Except ProvErr Unit
  poolOp : Except ProvErr Unit

/-- The externally visible steps of a provisioner run, in program order. -/
inductive ProvStep where
  | stepGetClusterInfo
  | stepGetSubnetwork
  | stepGetInternalRange
  | stepCreateInternalRange
  | stepWaitInternalRange
  | stepPatchSubnet (cidr : String)
  | stepWaitPatch
  | stepEnsureIPPool (cidr : String)
  deriving DecidableEq, Repr

/-- The `allocateInternalRange` function (range.go lines 20-85): fetch the existing
reservation; a non-NotFound fetch error is returned; on NotFound create the
reservation and wait for the operation, which yields the assigned CIDR.
The Go function returns the empty string together with any error. -/
def allocateInternalRangeM (env : ProvEnv) :
    Except ProvErr String × List ProvStep :=
  match env.getInternalRange with
  | Except.ok cidr => (Except.ok cidr, [ProvStep.stepGetInternalRange])
  | Except.error e =>
    if e.notFound = false then
      (Except.error e, [ProvStep.stepGetInternalRange])
    else
      match env.createInternalRange with
      | Except.error e2 =>
        (Except.error e2,
         [ProvStep.stepGetInternalRange, ProvStep.stepCreateInternalRange])
      | Except.ok _ =>
        match env.waitInternalRange with
        | Except.error e3 =>
          (Except.error e3,
           [ProvStep.stepGetInternalRange, ProvStep.stepCreateInternalRange,
            ProvStep.stepWaitInternalRange])
        | Except.ok cidr =>
          (Except.ok cidr,
           [ProvStep.stepGetInternalRange, ProvStep.stepCreateInternalRange,
            ProvStep.stepWaitInternalRange])

/-- The `Provisioner.Provision` sequence (provisioner.go lines 108-229): discover the
cluster identity, fetch the subnet; if a secondary range with the requested
name already exists, only ensure the IPPool; otherwise call
`allocateInternalRange` — whose returned error is NOT checked
(provisioner.go:168 assigns it to `err`, which is next overwritten at the
`Patch` call), so on failure the empty-string CIDR is carried forward —
then patch the subnet with the new secondary range, wait, and create or
update the IPPool. -/
def provisionM (env : ProvEnv) (secondaryRangeName : String) :
    Except ProvErr Unit × List ProvStep :=
  match env.clusterInfo with
  | Except.error e => (Except.error e, [ProvStep.stepGetClusterInfo])
  | Except.ok _ =>
    match env.getSubnet with
    | Except.error e =>
      (Except.error e, [ProvStep.stepGetClusterInfo, ProvStep.stepGetSubnetwork])
    | Except.ok subnet =>
      match subnet.secondaryRanges.find? (fun r => r.1 = secondaryRangeName) with
      | some r =>
        ((match env.poolOp with
          | Except.error e => Except.error e
          | Except.ok _ => Except.ok ()),
         [ProvStep.stepGetClusterInfo, ProvStep.stepGetSubnetwork,
          ProvStep.stepEnsureIPPool r.2])
      | none =>
        let rangeResult := allocateInternalRangeM env
        let internalRangeCIDR :=
          match rangeResult.1 with
          | Except.ok cidr => cidr
          | Except.error _ => ""
        let steps := [ProvStep.stepGetClusterInfo, ProvStep.stepGetSubnetwork]
          ++ rangeResult.2
        match env.patchSubnet with
        | Except.error e =>
          (Except.error e, steps ++ [ProvStep.stepPatchSubnet internalRangeCIDR])
        | Except.ok _ =>
          match env.waitPatch with
          | Except.error e =>
            (Except.error e, steps ++ [ProvStep.stepPatchSubnet internalRangeCIDR,
              ProvStep.stepWaitPatch])
          | Except.ok _ =>
            match env.poolOp with
            | Except.error e =>
              (Except.error e,
               steps ++ [ProvStep.stepPatchSubnet internalRangeCIDR,
                ProvStep.stepWaitPatch,
                ProvStep.stepEnsureIPPool internalRangeCIDR])
            | Except.ok _ =>
              (Except.ok (),
               steps ++ [ProvStep.stepPatchSubnet internalRangeCIDR,
                ProvStep.stepWaitPatch,
                ProvStep.stepEnsureIPPool internalRangeCIDR])

/-- C9 failing input: metadata and subnet fetches succeed, the subnet has
no secondary range named `live`, and the internal-range reservation fetch
fails with a non-NotFound error (e.g. permission denied); the remaining
calls succeed. -/
def envC9 : ProvEnv :=
  ⟨Except.ok ⟨"proj", "us-central1", "subnetA", "net1"⟩,
   Except.ok ⟨[], "fp-1"⟩,
   Except.error ⟨false, "permission denied"⟩,
   Except.ok (), Except.ok "10.1.0.0/16", Except.ok (), Except.ok (),
   Except.ok ()⟩

/-- C9 is right and the code is wrong: `allocateInternalRange` fails with a
non-NotFound error, yet the run does not stop — the error is dropped at
provisioner.go:168, the subnet patch is issued with an empty-string
secondary-range CIDR, the IPPool is created with that empty CIDR, and the
run reports success. -/
theorem claim_C9_dropped_range_error :
    (allocateInternalRangeM envC9).1 =
      Except.error ⟨false, "permission denied"⟩ ∧
    (provisionM envC9 "live").1 = Except.ok () ∧
    ProvStep.stepPatchSubnet "" ∈ (provisionM envC9 "live").2 ∧
    ProvStep.stepEnsureIPPool "" ∈ (provisionM envC9 "live").2 := by
  refine ⟨rfl, rfl, ?_, ?_⟩
  · show ProvStep.stepPatchSubnet "" ∈
      [ProvStep.stepGetClusterInfo, ProvStep.stepGetSubnetwork,
       ProvStep.stepGetInternalRange, ProvStep.stepPatchSubnet "",
       ProvStep.stepWaitPatch, ProvStep.stepEnsureIPPool ""]
    simp
  · show ProvStep.stepEnsureIPPool "" ∈
      [ProvStep.stepGetClusterInfo, ProvStep.stepGetSubnetwork,
       ProvStep.stepGetInternalRange, ProvStep.stepPatchSubnet "",
       ProvStep.stepWaitPatch, ProvStep.stepEnsureIPPool ""]
    simp

/-! ### Claim C10: the DEL preamble on a pod with no pod IPs -/

/-- A pod as read by `cmdDel`: the `live.cast.ai/move-out-ip` annotation
presence and the `status.podIPs` list. -/
structure PodInfo where
  hasMoveOutAnnot : Bool
  podIPs : List Nat
  deriving DecidableEq, Repr

/-- Environment for the `cmdDel` preamble: the outcomes of the stdin
config parse, the kube-client construction, and the pod fetch. -/
structure DelEnv where
  parseConf : Except String Unit
  kubeClient : Except String Unit
  getPod : Except String PodInfo

/-- Outcome of `cmdDel` up to and including the `pod.Status.PodIPs[0]`
read (part_000 lines 358-404). -/
inductive DelOutcome where
  /-- empty container namespace: immediate success -/
  | earlySuccess
  /-- an error returned to the CNI framing layer (error envelope) -/
  | errEnvelope (msg : String)
  /-- runtime panic: index out of range on an empty slice -/
  | panicIndex
  /-- the verb continues with this IP and migration-out flag -/
  | proceeds (ip : Nat) (isMigrationOut : Bool)
  deriving DecidableEq, Repr

/-- The head of `cmdDel`: empty netns returns success immediately; config
parse, kube-client and pod-fetch errors are returned (becoming CNI error
envelopes); then `ip := p.Status.PodIPs[0].IP` is read with no length
check, which panics when the pod status carries no IPs. -/
def cmdDelHead (netns : String) (env : DelEnv) : DelOutcome :=
  if netns = "" then DelOutcome.earlySuccess
  else match env.parseConf with
  | Except.error e => DelOutcome.errEnvelope e
  | Except.ok _ =>
    match env.kubeClient with
    | Except.error e => DelOutcome.errEnvelope ("failed to build k8s client: " ++ e)
    | Except.ok _ =>
      match env.getPod with
      | Except.error e => DelOutcome.errEnvelope ("failed to get pod: " ++ e)
      | Except.ok pod =>
        match pod.podIPs with
        | [] => DelOutcome.panicIndex
        | ip :: _ => DelOutcome.proceeds ip pod.hasMoveOutAnnot

/-- C10: a DEL invocation with a non-empty container namespace whose
preamble succeeds but whose fetched pod has an empty `status.podIPs` list
panics with an out-of-range index at the `pod.Status.PodIPs[0]` read, and
in particular does not return a CNI error envelope. -/
theorem claim_C10_del_empty_podips_panics (netns : String) (env : DelEnv)
    (pod : PodInfo) (hn : netns ≠ "")
    (hp : env.parseConf = Except.ok ())
    (hk : env.kubeClient = Except.ok ())
    (hg : env.getPod = Except.ok pod) (hip : pod.podIPs = []) :
    cmdDelHead netns env = DelOutcome.panicIndex ∧
    ∀ msg, cmdDelHead netns env ≠ DelOutcome.errEnvelope msg := by
  obtain ⟨annot, ips⟩ := pod
  have hip' : ips = [] := hip
  subst hip'
  unfold cmdDelHead
  rw [if_neg hn, hp, hk, hg]
  exact ⟨rfl, fun msg h => DelOutcome.noConfusion h⟩

/-- C10 witness environment: all preamble calls succeed and the pod
carries no pod IPs. -/
def envC10 : DelEnv :=
  ⟨Except.ok (), Except.ok (), Except.ok ⟨false, []⟩⟩

/-- Witness for C10 at a concrete environment. -/
theorem claim_C10_witness :
    cmdDelHead "ns-path" envC10 = DelOutcome.panicIndex ∧
    ∀ msg, cmdDelHead "ns-path" envC10 ≠ DelOutcome.errEnvelope msg :=
  claim_C10_del_empty_podips_panics "ns-path" envC10 ⟨false, []⟩
    (by decide) rfl rfl rfl rfl

end GcpCni
